import Mathlib

/-!
Shallow embedding of the pendragondi-cloud-audit scan-and-classify pipeline
(providers aws_s3 / azure_blob / gcs, auditor_core, reporter) together with
theorems checking the specification claims against it.

Timestamps are modelled as integers counting microseconds (the resolution of
Python datetime); `now.replace(microsecond=0)` becomes flooring to a multiple
of `usecPerSec`.
-/

namespace CloudAudit

abbrev Time := Int

def usecPerSec : Int := 1000000

def usecPerDay : Int := 86400 * 1000000

/-- A raw object tuple coming from a provider listing: for AWS the `path`
component is the object key (the `s3://bucket/` prefix is added by the scan). -/
structure RawObj where
  path : String
  size : Nat
  last_modified : Time
deriving DecidableEq, Repr

/-- One record of a scan result, a Python dict with fixed keys in the source.
`is_oversized = none` models the key being absent from the dict. -/
structure ObjectRecord where
  path : String
  size : Nat
  last_modified : Time
  is_stale : Bool
  is_oversized : Option Bool
  duplicate_id : Option String
deriving DecidableEq, Repr

/-- Python truthiness of `limit and count >= limit` for `limit : Optional[int]`:
`None` and `0` are falsy, so they never stop the enumeration. -/
def limitReached (limit : Option Nat) (count : Nat) : Bool :=
  match limit with
  | none => false
  | some k => decide (0 < k ∧ k ≤ count)

/-- Inner page loop of `aws_s3.scan`: pull objects from one page, incrementing
`count` per object and breaking once the limit is reached (checked after the
append, as in the source). Returns the pulled objects and the new count. -/
def pullPage (limit : Option Nat) : Nat → List RawObj → List RawObj × Nat
  | count, [] => ([], count)
  | count, o :: rest =>
    let c := count + 1
    if limitReached limit c then ([o], c)
    else
      let r := pullPage limit c rest
      (o :: r.1, r.2)

/-- Outer paginator loop of `aws_s3.scan`: process pages in order, stopping
after the page in which the limit was reached. The third component counts the
pages actually requested from the paginator. -/
def pullPages (limit : Option Nat) : Nat → List (List RawObj) → List RawObj × Nat × Nat
  | count, [] => ([], count, 0)
  | count, pg :: rest =>
    let r := pullPage limit count pg
    if limitReached limit r.2 then (r.1, r.2, 1)
    else
      let s := pullPages limit r.2 rest
      (r.1 ++ s.1, s.2.1, s.2.2 + 1)

/-- Item loop of `gcs.scan` (non-public): append each blob, breaking once
`len(files) >= limit` after the append. Returns the files pulled and the number
of items consumed from the iterator. -/
def gcsPull (limit : Option Nat) : Nat → List RawObj → List RawObj × Nat
  | _, [] => ([], 0)
  | count, o :: rest =>
    let c := count + 1
    if limitReached limit c then ([o], 1)
    else
      let r := gcsPull limit c rest
      (o :: r.1, r.2 + 1)

/-- The `stale_cutoff = now.replace(microsecond=0) - timedelta(days=days_stale)`
of `aws_s3.scan`. -/
def awsCutoff (now : Time) (days_stale : Nat) : Time :=
  (now - now % usecPerSec) - days_stale * usecPerDay

/-- The `cutoff = now - timedelta(days=days_stale)` of `azure_blob.scan` and
`gcs.scan` (no microsecond truncation). -/
def azureCutoff (now : Time) (days_stale : Nat) : Time :=
  now - days_stale * usecPerDay

/-- Building one record in the enumeration loop: `is_stale = last_modified <
stale_cutoff`, `duplicate_id = None`, and no `is_oversized` key at all. -/
def classifyObj (cutoff : Time) (o : RawObj) : ObjectRecord :=
  { path := o.path
    size := o.size
    last_modified := o.last_modified
    is_stale := decide (o.last_modified < cutoff)
    is_oversized := none
    duplicate_id := none }

abbrev Fingerprint := Nat × Time

def fingerprintOf (o : RawObj) : Fingerprint := (o.size, o.last_modified)

/-- One step `hash_map[fingerprint].append(path)` on an insertion-ordered map
(`defaultdict(list)`), modelled as an association list. -/
def addToGroups (fp : Fingerprint) (p : String) :
    List (Fingerprint × List String) → List (Fingerprint × List String)
  | [] => [(fp, [p])]
  | (fp', ps) :: rest =>
    if fp' = fp then (fp', ps ++ [p]) :: rest
    else (fp', ps) :: addToGroups fp p rest

/-- The `hash_map` built over the enumeration, in insertion order. -/
def groupsOf (objs : List RawObj) : List (Fingerprint × List String) :=
  objs.foldl (fun g o => addToGroups (fingerprintOf o) o.path g) []

/-- The id `f"group-{hash(path) % 10000}"` from `aws_s3.scan` / `gcs.scan`; the
language-level string hash is an abstract parameter `h`. -/
def awsGid (h : String → Nat) (p : String) : String :=
  "group-" ++ toString (h p % 10000)

/-- Inner write-back loop: `for file in files: if file["path"] == path:
file["duplicate_id"] = gid` (the whole list is traversed, no break). -/
def assignPath (p : String) (gid : String) (files : List ObjectRecord) :
    List ObjectRecord :=
  files.map fun f => if f.path = p then { f with duplicate_id := some gid } else f

/-- Duplicate-id write-back of `aws_s3.scan` / `gcs.scan`: for every group with
more than one path, for every path in the group, rescan the whole file list and
set the id of that record to `group-{hash(path) % 10000}`. -/
def awsWriteBack (h : String → Nat) (groups : List (Fingerprint × List String))
    (files : List ObjectRecord) : List ObjectRecord :=
  groups.foldl
    (fun fs g =>
      if g.2.length > 1 then g.2.foldl (fun fs' p => assignPath p (awsGid h p) fs') fs
      else fs)
    files

def s3Path (bucket : String) (key : String) : String :=
  "s3://" ++ bucket ++ "/" ++ key

/-- Non-public `aws_s3.scan`: capture `now`, compute the cutoff once, pull
objects page by page up to the limit, classify each, then run the duplicate
write-back over the full set. `h` abstracts the Python string hash. -/
def awsScan (h : String → Nat) (bucket : String) (pages : List (List RawObj))
    (now : Time) (days_stale : Nat) (limit : Option Nat) : List ObjectRecord :=
  let cutoff := awsCutoff now days_stale
  let items := ((pullPages limit 0 pages).1).map
    (fun o => { o with path := s3Path bucket o.path })
  awsWriteBack h (groupsOf items) (items.map (classifyObj cutoff))

/-- The hardcoded `known_keys` allow-list of the public fallback mode of
`aws_s3.scan`. -/
def knownKeys : String → Option (List String)
  | "commoncrawl" =>
    some ["crawl-data/CC-MAIN-2024-10/index.html",
          "crawl-data/CC-MAIN-2024-10/segment.paths.gz",
          "crawl-data/CC-MAIN-2024-10/warc.paths.gz"]
  | "nyc-tlc" =>
    some ["trip_data_green_2023-01.csv", "trip_data_yellow_2023-01.csv"]
  | "landsat-pds" =>
    some ["c1/L8/001/002/LC08_L1TP_001002_20200101_20200101_01_RT/LC08_L1TP_001002_20200101_20200101_01_RT_MTL.txt"]
  | _ => none

/-- Public-mode `aws_s3.scan`: unknown buckets raise; for known buckets each
key is fetched with `head_object`, and a `ClientError` on one key is skipped
(`except ClientError: continue`), so failing keys simply drop out. `fetch`
abstracts `head_object`, returning size and last-modified or an error. -/
def awsPublicScan (h : String → Nat) (fetch : String → Except Unit (Nat × Time))
    (bucket : String) (now : Time) (days_stale : Nat) :
    Except String (List ObjectRecord) :=
  match knownKeys bucket with
  | none => .error ("Public mode is not supported for bucket " ++ bucket ++ " yet.")
  | some keys =>
    let cutoff := awsCutoff now days_stale
    let items := keys.filterMap fun k =>
      match fetch k with
      | .error _ => none
      | .ok sd => some ({ path := s3Path bucket k, size := sd.1, last_modified := sd.2 } : RawObj)
    .ok (awsWriteBack h (groupsOf items) (items.map (classifyObj cutoff)))

/-- Non-public enumeration over a source that can fail mid-stream: pulling an
item either yields a raw object or raises. The first raised error aborts the
whole pull, as an uncaught exception does in the source. -/
def pullFallible {E : Type} : List (Except E RawObj) → Except E (List RawObj)
  | [] => .ok []
  | .error e :: _ => .error e
  | .ok o :: rest => (pullFallible rest).map (o :: ·)

/-- The non-public `aws_s3.scan` with no limit over a failable source: any exception
raised during enumeration propagates and no record list is returned. -/
def awsScanFallible {E : Type} (h : String → Nat) (bucket : String)
    (stream : List (Except E RawObj)) (now : Time) (days_stale : Nat) :
    Except E (List ObjectRecord) :=
  (pullFallible stream).map fun objs =>
    let cutoff := awsCutoff now days_stale
    let items := objs.map (fun o => { o with path := s3Path bucket o.path })
    awsWriteBack h (groupsOf items) (items.map (classifyObj cutoff))

/-- Comparison count of the duplicate write-back of `aws_s3.scan` / `gcs.scan`:
for every path of every group with more than one member, the inner loop
compares `file["path"] == path` against every one of the `files.length`
records (the Python `for` loop has no break there). -/
def awsWriteBackComps (groups : List (Fingerprint × List String))
    (files : List ObjectRecord) : Nat :=
  (groups.map fun g => if g.2.length > 1 then g.2.length * files.length else 0).sum

/-- Total write-back comparisons performed by `aws_s3.scan` on a single page of
objects with no limit. -/
def awsScanComps (bucket : String) (objs : List RawObj) (now : Time)
    (days_stale : Nat) : Nat :=
  let cutoff := awsCutoff now days_stale
  let items := objs.map (fun o => { o with path := s3Path bucket o.path })
  awsWriteBackComps (groupsOf items) (items.map (classifyObj cutoff))

/-- Number of records sitting in duplicate groups (the paths the write-back
iterates over). -/
def dupMemberCount (groups : List (Fingerprint × List String)) : Nat :=
  (groups.map fun g => if g.2.length > 1 then g.2.length else 0).sum

section ErrorHandling

/-- The exceptions a provider scan can raise, as `auditor_core.scan_bucket`
distinguishes them: the three builtin kinds the providers translate to, the
vendor-specific `botocore.exceptions.ClientError` carrying an error code, and
anything else. -/
inductive ProviderError where
  | permissionErr
  | fileNotFoundErr
  | connectionErr
  | clientError (code : String)
  | otherErr (msg : String)
deriving DecidableEq, Repr

/-- What reaches the caller of `scan_bucket`: either a `RuntimeError` with a
message, or a raw provider exception re-raised unchanged. -/
inductive SurfacedError where
  | runtimeError (msg : String)
  | raw (e : ProviderError)
deriving DecidableEq, Repr

/-- The `except` chain of `auditor_core.scan_bucket`: `PermissionError`,
`FileNotFoundError` and `ConnectionError` become `RuntimeError`s with one-line
messages; `botocore.exceptions.ClientError` is matched on its vendor error
code, translated for `AccessDenied` and re-raised raw otherwise (a re-raise
inside that handler is not caught by the final `except Exception`); every
other exception becomes a `RuntimeError`. -/
def scanBucketHandle (provider_name : String) (bucket : String) :
    ProviderError → SurfacedError
  | .permissionErr =>
    .runtimeError ("Permission denied accessing " ++ bucket ++
      ". Check credentials and bucket permissions.")
  | .fileNotFoundErr =>
    .runtimeError ("Bucket or container " ++ bucket ++ " not found or inaccessible.")
  | .connectionErr =>
    .runtimeError ("Network connection error while scanning " ++ bucket ++
      ". Check connectivity and retry.")
  | .clientError code =>
    if code = "AccessDenied" then
      .runtimeError ("Access denied scanning " ++ bucket ++
        ". This bucket may be public but does not allow object listing. " ++
        "Try another bucket or check permissions.")
    else .raw (.clientError code)
  | .otherErr msg =>
    .runtimeError ("Unexpected error scanning " ++ bucket ++ " via " ++
      provider_name ++ ": " ++ msg)

end ErrorHandling

section Reporter

/-- The values reporter records can hold, with Python truthiness relevant to
`_ensure_status`; `vnone` is Python `None`. -/
inductive Val where
  | str (s : String)
  | nat (n : Nat)
  | bool (b : Bool)
  | vnone
deriving DecidableEq, Repr

/-- Python truthiness of a value. -/
def Val.truthy : Val → Bool
  | .str s => s ≠ ""
  | .nat n => n ≠ 0
  | .bool b => b
  | .vnone => false

/-- Python `str(value)` as `_format_cell` applies it to non-datetime values. -/
def Val.pystr : Val → String
  | .str s => s
  | .nat n => toString n
  | .bool b => if b then "True" else "False"
  | .vnone => "None"

/-- A reporter record: a Python dict modelled as an insertion-ordered
association list with unique keys. -/
abbrev RDict := List (String × Val)

def keysOf (r : RDict) : List String := r.map Prod.fst

/-- Lookup `r.get(k, default)` on a record. -/
def dget (r : RDict) (k : String) (dflt : Val) : Val :=
  match r.lookup k with
  | some v => v
  | none => dflt

/-- Assignment `r[k] = v`: replace the value in place when the key exists, else append
the key at the end (Python dicts keep insertion order). -/
def dset (r : RDict) (k : String) (v : Val) : RDict :=
  if (r.lookup k).isSome then
    r.map fun p => if p.1 = k then (k, v) else p
  else r ++ [(k, v)]

/-- One record step of `reporter._ensure_status`: skip records whose `status` is
present and truthy, otherwise backfill by priority duplicate > stale >
active, testing `r.get(...)` truthiness. -/
def ensureStatusRec (r : RDict) : RDict :=
  if (dget r "status" .vnone).truthy then r
  else if (dget r "duplicate_id" .vnone).truthy then dset r "status" (.str "duplicate")
  else if (dget r "is_stale" .vnone).truthy then dset r "status" (.str "stale")
  else dset r "status" (.str "active")

/-- The map of `reporter._ensure_status` over the record list. -/
def ensureStatus (records : List RDict) : List RDict :=
  records.map ensureStatusRec

/-- The constant `reporter.PREFERRED_ORDER`. -/
def PREFERRED_ORDER : List String :=
  ["path", "status", "size", "last_modified", "duplicate_id"]

/-- Python string comparison: lexicographic on the code points, here the lex
order on the character lists. -/
def strLe (a b : String) : Prop := a.data ≤ b.data

instance : DecidableRel strLe := fun a b => inferInstanceAs (Decidable (a.data ≤ b.data))

instance : IsTotal String strLe := ⟨fun a b => le_total a.data b.data⟩

instance : IsTrans String strLe := ⟨fun _ _ _ h1 h2 => le_trans h1 h2⟩

instance : IsAntisymm String strLe :=
  ⟨fun a b h1 h2 => by
    cases a; cases b
    exact congrArg String.mk (le_antisymm h1 h2)⟩

/-- The `all_keys` set of `reporter._union_headers`, as the list of observed
keys with duplicates dropped. -/
def allKeys (records : List RDict) : List String :=
  (records.flatMap keysOf).dedup

/-- The `ordered` prefix of `reporter._union_headers`: the preferred keys that
are present, in preferred order. -/
def orderedHeaders (records : List RDict) : List String :=
  PREFERRED_ORDER.filter (fun k => k ∈ allKeys records)

/-- The `remaining` suffix of `reporter._union_headers`: every other observed
key, sorted lexicographically (`sorted(...)` on code points). -/
def remainingHeaders (records : List RDict) : List String :=
  List.insertionSort strLe ((allKeys records).filter (fun k => k ∉ orderedHeaders records))

/-- The full `reporter._union_headers`: the preferred keys that occur, in preferred
order, then every remaining observed key sorted lexicographically. -/
def unionHeaders (records : List RDict) : List String :=
  orderedHeaders records ++ remainingHeaders records

/-- The placeholder record substituted by every report writer when the record
list is empty. -/
def placeholder : RDict := [("message", .str "No objects found or bucket empty")]

/-- The guard `if not metadata: metadata = [{"message": ...}]` shared by the three
writers. -/
def effectiveMetadata (metadata : List RDict) : List RDict :=
  if metadata.isEmpty then [placeholder] else metadata

/-- The table rows `reporter.save_html_report` renders: one row per record,
one formatted cell per header (`row.get(h, "")` through `_format_cell`). -/
def saveHtmlRows (metadata : List RDict) : List (List String) :=
  let m := ensureStatus (effectiveMetadata metadata)
  let headers := unionHeaders m
  m.map fun r => headers.map fun hd => (dget r hd (.str "")).pystr

/-- The data rows `reporter.save_csv_report` writes through `csv.DictWriter`. -/
def saveCsvRows (metadata : List RDict) : List (List String) :=
  let m := ensureStatus (effectiveMetadata metadata)
  let headers := unionHeaders m
  m.map fun r => headers.map fun hd => (dget r hd (.str "")).pystr

/-- The normalized record list `reporter.save_json_report` serializes
(`_jsonify` only converts datetimes, which `Val` has already flattened). -/
def saveJsonOut (metadata : List RDict) : List RDict :=
  ensureStatus (effectiveMetadata metadata)

end Reporter

/-- Whether a surfaced error is a taxonomy `RuntimeError` (as opposed to a raw
re-raised provider exception). -/
def SurfacedError.isRuntime : SurfacedError → Bool
  | .runtimeError _ => true
  | .raw _ => false

/-- Two records agreeing on every field except possibly `duplicate_id` (the
only field the duplicate write-back touches). -/
def AgreesExceptDup (r' r : ObjectRecord) : Prop :=
  r'.path = r.path ∧ r'.size = r.size ∧ r'.last_modified = r.last_modified ∧
    r'.is_stale = r.is_stale ∧ r'.is_oversized = r.is_oversized


/-! ## Helper lemmas -/

theorem agreesExceptDup_refl (r : ObjectRecord) : AgreesExceptDup r r :=
  ⟨rfl, rfl, rfl, rfl, rfl⟩

theorem agreesExceptDup_trans {a b c : ObjectRecord} (h1 : AgreesExceptDup a b)
    (h2 : AgreesExceptDup b c) : AgreesExceptDup a c := by
  obtain ⟨p1, s1, l1, t1, o1⟩ := h1
  obtain ⟨p2, s2, l2, t2, o2⟩ := h2
  exact ⟨p1.trans p2, s1.trans s2, l1.trans l2, t1.trans t2, o1.trans o2⟩

theorem forall₂_agrees_refl (l : List ObjectRecord) : List.Forall₂ AgreesExceptDup l l :=
  List.forall₂_same.2 fun x _ => agreesExceptDup_refl x

theorem forall₂_agrees_trans {l₁ l₂ l₃ : List ObjectRecord}
    (h1 : List.Forall₂ AgreesExceptDup l₁ l₂) (h2 : List.Forall₂ AgreesExceptDup l₂ l₃) :
    List.Forall₂ AgreesExceptDup l₁ l₃ := by
  induction h1 generalizing l₃ with
  | nil => cases h2; exact .nil
  | cons h t ih =>
    cases h2 with
    | cons h2h h2t => exact .cons (agreesExceptDup_trans h h2h) (ih h2t)

theorem assignPath_forall₂ (p gid : String) (files : List ObjectRecord) :
    List.Forall₂ AgreesExceptDup (assignPath p gid files) files := by
  induction files with
  | nil => exact .nil
  | cons f fs ih =>
    refine List.Forall₂.cons ?_ ih
    by_cases hp : f.path = p <;> simp [assignPath, hp, AgreesExceptDup]

theorem foldl_forall₂ {α : Type} (f : List ObjectRecord → α → List ObjectRecord)
    (hf : ∀ fs a, List.Forall₂ AgreesExceptDup (f fs a) fs) :
    ∀ (l : List α) (fs : List ObjectRecord),
      List.Forall₂ AgreesExceptDup (List.foldl f fs l) fs
  | [], fs => forall₂_agrees_refl fs
  | a :: l, fs => forall₂_agrees_trans (foldl_forall₂ f hf l (f fs a)) (hf fs a)

theorem awsWriteBack_forall₂ (h : String → Nat) (groups : List (Fingerprint × List String))
    (files : List ObjectRecord) :
    List.Forall₂ AgreesExceptDup (awsWriteBack h groups files) files := by
  apply foldl_forall₂
  intro fs g
  by_cases hg : g.2.length > 1
  · simpa [hg] using foldl_forall₂ (fun fs' p => assignPath p (awsGid h p) fs')
      (fun fs' p => assignPath_forall₂ p (awsGid h p) fs') g.2 fs
  · simpa [hg] using forall₂_agrees_refl fs

theorem forall₂_agrees_mem_left {l₁ l₂ : List ObjectRecord}
    (hf : List.Forall₂ AgreesExceptDup l₁ l₂) {r : ObjectRecord} (hr : r ∈ l₁) :
    ∃ r₀ ∈ l₂, AgreesExceptDup r r₀ := by
  induction hf with
  | nil => cases hr
  | cons h t ih =>
    rcases List.mem_cons.1 hr with rfl | hr'
    · exact ⟨_, List.mem_cons_self _ _, h⟩
    · obtain ⟨r₀, hm, ha⟩ := ih hr'
      exact ⟨r₀, List.mem_cons_of_mem _ hm, ha⟩

theorem mem_awsScan_stale {h : String → Nat} {bucket : String} {pages : List (List RawObj)}
    {now : Time} {D : Nat} {limit : Option Nat} {r : ObjectRecord}
    (hr : r ∈ awsScan h bucket pages now D limit) :
    r.is_stale = decide (r.last_modified < awsCutoff now D) := by
  obtain ⟨r₀, hm, ha⟩ := forall₂_agrees_mem_left (awsWriteBack_forall₂ _ _ _) hr
  obtain ⟨o, _, rfl⟩ := List.mem_map.1 hm
  obtain ⟨-, -, hlm, hst, -⟩ := ha
  rw [hst, hlm]
  rfl

theorem pullPage_spec (K : Nat) (hK : 0 < K) :
    ∀ (objs : List RawObj) (count : Nat), count < K →
      (pullPage (some K) count objs).1 = objs.take (K - count) ∧
      (pullPage (some K) count objs).2 = count + min (K - count) objs.length
  | [], count, hc => by simp [pullPage]
  | o :: rest, count, hc => by
    by_cases hreach : K ≤ count + 1
    · have h1 : K - count = 1 := by omega
      simp only [pullPage, limitReached, decide_eq_true_eq]
      rw [if_pos ⟨hK, hreach⟩, h1]
      refine ⟨?_, ?_⟩
      · show [o] = (o :: rest).take 1
        simp
      · show count + 1 = count + min 1 (o :: rest).length
        simp only [List.length_cons]
        omega
    · have hc' : count + 1 < K := by omega
      have ih := pullPage_spec K hK rest (count + 1) hc'
      simp only [pullPage, limitReached, decide_eq_true_eq]
      rw [if_neg (by omega)]
      have h2 : K - count = (K - (count + 1)) + 1 := by omega
      refine ⟨?_, ?_⟩
      · show o :: (pullPage (some K) (count + 1) rest).1 = (o :: rest).take (K - count)
        rw [h2, List.take_succ_cons, ih.1]
      · show (pullPage (some K) (count + 1) rest).2 = count + min (K - count) (o :: rest).length
        rw [ih.2]
        simp only [List.length_cons]
        omega

theorem gcsPull_spec (K : Nat) (hK : 0 < K) :
    ∀ (objs : List RawObj) (count : Nat), count < K → K - count ≤ objs.length →
      (gcsPull (some K) count objs).1 = objs.take (K - count) ∧
      (gcsPull (some K) count objs).2 = K - count
  | [], count, hc, hlen => by simp at hlen; omega
  | o :: rest, count, hc, hlen => by
    by_cases hreach : K ≤ count + 1
    · have h1 : K - count = 1 := by omega
      simp only [gcsPull, limitReached, decide_eq_true_eq]
      rw [if_pos ⟨hK, hreach⟩, h1]
      refine ⟨?_, ?_⟩
      · show [o] = (o :: rest).take 1
        simp
      · show (1 : Nat) = 1
        rfl
    · have hc' : count + 1 < K := by omega
      have hlen' : K - (count + 1) ≤ rest.length := by
        simp only [List.length_cons] at hlen; omega
      have ih := gcsPull_spec K hK rest (count + 1) hc' hlen'
      simp only [gcsPull, limitReached, decide_eq_true_eq]
      rw [if_neg (by omega)]
      have h2 : K - count = (K - (count + 1)) + 1 := by omega
      refine ⟨?_, ?_⟩
      · show o :: (gcsPull (some K) (count + 1) rest).1 = (o :: rest).take (K - count)
        rw [h2, List.take_succ_cons, ih.1]
      · show (gcsPull (some K) (count + 1) rest).2 + 1 = K - count
        rw [ih.2]
        omega

theorem pullPages_spec (K : Nat) (hK : 0 < K) :
    ∀ (pages : List (List RawObj)) (count : Nat), count < K →
      K ≤ count + pages.flatten.length →
      (pullPages (some K) count pages).1 = pages.flatten.take (K - count) ∧
      (pullPages (some K) count pages).2.1 = K ∧
      1 ≤ (pullPages (some K) count pages).2.2 ∧
      (pages.take ((pullPages (some K) count pages).2.2 - 1)).flatten.length < K - count
  | [], count, hc, hle => by simp at hle; omega
  | pg :: rest, count, hc, hle => by
    have hpage := pullPage_spec K hK pg count hc
    by_cases henough : K ≤ count + pg.length
    · have hcnt : (pullPage (some K) count pg).2 = K := by rw [hpage.2]; omega
      simp only [pullPages, limitReached, decide_eq_true_eq]
      rw [hcnt, if_pos (show 0 < K ∧ K ≤ K from ⟨hK, le_refl K⟩)]
      refine ⟨?_, rfl, le_refl 1, ?_⟩
      · show (pullPage (some K) count pg).1 = (pg :: rest).flatten.take (K - count)
        rw [hpage.1, List.flatten_cons, List.take_append_of_le_length (by omega)]
      · show ((pg :: rest).take (1 - 1)).flatten.length < K - count
        simp only [Nat.sub_self, List.take_zero, List.flatten_nil, List.length_nil]
        omega
    · have hcnt : (pullPage (some K) count pg).2 = count + pg.length := by
        rw [hpage.2]; omega
      have hc' : count + pg.length < K := by omega
      have hle' : K ≤ (count + pg.length) + rest.flatten.length := by
        simp only [List.flatten_cons, List.length_append] at hle; omega
      have ih := pullPages_spec K hK rest (count + pg.length) hc' hle'
      simp only [pullPages, limitReached, decide_eq_true_eq]
      rw [hcnt, if_neg (show ¬(0 < K ∧ K ≤ count + pg.length) by omega)]
      refine ⟨?_, ih.2.1, show 1 ≤ (pullPages (some K) (count + pg.length) rest).2.2 + 1
        by omega, ?_⟩
      · show (pullPage (some K) count pg).1 ++ (pullPages (some K) (count + pg.length) rest).1 =
          (pg :: rest).flatten.take (K - count)
        rw [hpage.1, List.flatten_cons, List.take_append_eq_append_take,
          List.take_of_length_le (show pg.length ≤ K - count by omega), ih.1,
          (show K - count - pg.length = K - (count + pg.length) by omega)]
      · show ((pg :: rest).take
            ((pullPages (some K) (count + pg.length) rest).2.2 + 1 - 1)).flatten.length < K - count
        have hp := ih.2.2.1
        have hmin := ih.2.2.2
        rw [Nat.add_sub_cancel]
        have h3 : (pullPages (some K) (count + pg.length) rest).2.2 =
            ((pullPages (some K) (count + pg.length) rest).2.2 - 1) + 1 := by omega
        rw [h3, List.take_succ_cons, List.flatten_cons, List.length_append]
        omega

/-! ## Claim theorems (C1, C2, C5, C8, C10) -/

theorem pullFallible_error {E : Type} (pre : List RawObj) (e : E)
    (rest : List (Except E RawObj)) :
    pullFallible (pre.map Except.ok ++ Except.error e :: rest) = Except.error e := by
  induction pre with
  | nil => rfl
  | cons o pre ih => simp [pullFallible, ih, Except.map]

/-- Claim C2: the spec requires an `is_oversized` field on every record when an
oversize threshold is active, but `aws_s3.scan` takes no oversize parameter and
never emits the field: scanning objects of `1*1024*1024 + 1` and
`1*1024*1024` bytes yields records without any `is_oversized` key (the claim
requires `true` and `false` respectively for threshold `T = 1`). The
repository's own test calls `scan(..., oversized_mb=0.005)` and reads
`r["is_oversized"]`, which the implementation cannot satisfy. -/
theorem c2_oversize_field_never_emitted :
    ((awsScan (fun _ => 0) "b" [[⟨"big", 1048577, 0⟩, ⟨"small", 1048576, 0⟩]] 0 1 none).map
      ObjectRecord.is_oversized) = [none, none] ∧
    ((awsScan (fun _ => 0) "b" [[⟨"big", 1048577, 0⟩, ⟨"small", 1048576, 0⟩]] 0 1 none).map
      ObjectRecord.size) = [1048577, 1048576] := by
  decide

/-- Claim C1: the spec requires all members of one fingerprint partition to
share one `duplicate_id`, but `aws_s3.scan` computes `group-{hash(path) %
10000}` from each member's own path, so the two records of one duplicate group
get distinct ids (witnessed here with the path-length hash; the repository's
own `test_duplicate_id_assignment_is_correct` asserts equality and is titled
as expected to fail on the current implementation). -/
theorem c1_same_fingerprint_distinct_ids :
    ((awsScan String.length "test-bucket"
        [[⟨"docs/report.pdf", 4096, 0⟩, ⟨"backup/report.pdf", 4096, 0⟩]] 0 90 none).map
      ObjectRecord.duplicate_id) = [some "group-32", some "group-34"] ∧
    ((awsScan String.length "test-bucket"
        [[⟨"docs/report.pdf", 4096, 0⟩, ⟨"backup/report.pdf", 4096, 0⟩]] 0 90 none).map
      (fun r => (r.size, r.last_modified))) = [(4096, 0), (4096, 0)] ∧
    ("group-32" : String) ≠ "group-34" := by
  refine ⟨by decide, by decide, by decide⟩

/-- Claim C10: every report writer substitutes the placeholder record
`{"message": "No objects found or bucket empty"}` for an empty input and emits
exactly that one row (with the backfilled `status` column). -/
theorem c10_empty_input_placeholder :
    saveHtmlRows [] = [["active", "No objects found or bucket empty"]] ∧
    saveCsvRows [] = [["active", "No objects found or bucket empty"]] ∧
    saveJsonOut [] = [[("message", Val.str "No objects found or bucket empty"),
                       ("status", Val.str "active")]] := by
  refine ⟨by decide, by decide, by decide⟩

/-- Claim C8 (counterexample): a vendor-specific `botocore` `ClientError` with
a code other than `AccessDenied` is re-raised raw by `auditor_core.scan_bucket`
and reaches the caller untranslated, so the error surfaced is not always a
taxonomy `RuntimeError`. -/
theorem c8_raw_client_error_leaks :
    scanBucketHandle "aws" "my-bucket" (ProviderError.clientError "SlowDown") =
      SurfacedError.raw (ProviderError.clientError "SlowDown") ∧
    (scanBucketHandle "aws" "my-bucket" (ProviderError.clientError "SlowDown")).isRuntime
      = false := by
  refine ⟨by decide, by decide⟩

/-- Claim C8 (amended): provider failures of the builtin kinds, an AWS
`ClientError` with code `AccessDenied`, and any unexpected exception are
surfaced as a `RuntimeError` with a one-line message, but the core matches on
the vendor-specific `ClientError` type and re-raises it raw to the caller for
every other code. -/
theorem c8_amended_error_translation :
    (∀ (p b : String) (e : ProviderError),
      (∀ c, e = ProviderError.clientError c → c = "AccessDenied") →
      (scanBucketHandle p b e).isRuntime = true) ∧
    (∀ (p b c : String), c ≠ "AccessDenied" →
      scanBucketHandle p b (ProviderError.clientError c) =
        SurfacedError.raw (ProviderError.clientError c)) := by
  constructor
  · intro p b e hc
    cases e with
    | clientError c =>
      rw [hc c rfl]
      rfl
    | permissionErr => rfl
    | fileNotFoundErr => rfl
    | connectionErr => rfl
    | otherErr m => rfl
  · intro p b c hc
    simp [scanBucketHandle, hc]

/-- Witness for the amended claim C8 at concrete inputs. -/
theorem c8_amended_error_translation_witness :
    (scanBucketHandle "aws" "b" ProviderError.permissionErr).isRuntime = true ∧
    scanBucketHandle "aws" "b" (ProviderError.clientError "SlowDown") =
      SurfacedError.raw (ProviderError.clientError "SlowDown") :=
  ⟨c8_amended_error_translation.1 "aws" "b" ProviderError.permissionErr
      (fun c hc => ProviderError.noConfusion hc),
    c8_amended_error_translation.2 "aws" "b" "SlowDown" (by decide)⟩

/-- Claim C5 (counterexample): in the public fallback mode of `aws_s3.scan` a
`ClientError` on one key does not abort the scan: with the second known key of
`commoncrawl` failing, the records pulled for the first and third keys are
still surfaced to the caller, contradicting that every mid-enumeration source
failure fails the whole scan with no partial results. -/
theorem c5_public_mode_surfaces_records :
    ((awsPublicScan (fun _ => 0)
        (fun k => if k = "crawl-data/CC-MAIN-2024-10/index.html" then .ok (1, 0)
          else if k = "crawl-data/CC-MAIN-2024-10/segment.paths.gz" then .error ()
          else .ok (2, 0))
        "commoncrawl" 0 90).toOption.map (fun l => l.map ObjectRecord.path)) =
      some ["s3://commoncrawl/crawl-data/CC-MAIN-2024-10/index.html",
            "s3://commoncrawl/crawl-data/CC-MAIN-2024-10/warc.paths.gz"] ∧
    (fun k => if k = "crawl-data/CC-MAIN-2024-10/index.html" then (.ok (1, 0) : Except Unit (Nat × Time))
          else if k = "crawl-data/CC-MAIN-2024-10/segment.paths.gz" then .error ()
          else .ok (2, 0)) "crawl-data/CC-MAIN-2024-10/segment.paths.gz" = .error () := by
  refine ⟨by decide, rfl⟩

/-- Claim C5 (amended): in the normal non-public enumeration a source failure
mid-stream aborts the whole scan with that error and no partial record list,
while the public fallback mode of a known bucket never aborts on a per-key
failure: failing keys are skipped and the scan still returns a record list. -/
theorem c5_amended_abort_semantics :
    (∀ (E : Type) (h : String → Nat) (bucket : String) (pre post : List RawObj) (e : E)
      (now : Time) (D : Nat),
      awsScanFallible h bucket (pre.map Except.ok ++ Except.error e :: post.map Except.ok)
        now D = Except.error e) ∧
    (∀ (h : String → Nat) (fetch : String → Except Unit (Nat × Time)) (now : Time) (D : Nat),
      ∃ l, awsPublicScan h fetch "commoncrawl" now D = Except.ok l) := by
  constructor
  · intro E h bucket pre post e now D
    unfold awsScanFallible
    rw [pullFallible_error]
    rfl
  · intro h fetch now D
    exact ⟨_, rfl⟩

/-! ## Claim theorems (C3, C4) -/

theorem cutoff_boundary_int (a x : Int) :
    (a - x - 1000000 < a - a % 1000000 - x) ∧
    ¬(a - x + 1000000 < a - a % 1000000 - x) ∧
    ¬(a - x < a - a % 1000000 - x) ∧
    (a - x - 1000000 < a - x) ∧
    ¬(a - x + 1000000 < a - x) ∧
    ¬(a - x < a - x) :=
  ⟨by omega, by omega, by omega, by omega, by omega, by omega⟩

/-- Claim C3: for a fixed captured `now` and `days_stale = D`, a record last
modified one second before `now - D days` is stale, one second after is not,
and exactly at the cutoff is not (for both the AWS cutoff, which truncates
`now` to whole seconds, and the Azure/GCS cutoff, which does not); moreover
every record of one scan is judged against the same cutoff instant. -/
theorem c3_staleness_boundary :
    (∀ (now : Time) (D : Nat),
      (classifyObj (awsCutoff now D) ⟨"k", 0, now - D * usecPerDay - usecPerSec⟩).is_stale
        = true ∧
      (classifyObj (awsCutoff now D) ⟨"k", 0, now - D * usecPerDay + usecPerSec⟩).is_stale
        = false ∧
      (classifyObj (awsCutoff now D) ⟨"k", 0, now - D * usecPerDay⟩).is_stale = false ∧
      (classifyObj (azureCutoff now D) ⟨"k", 0, now - D * usecPerDay - usecPerSec⟩).is_stale
        = true ∧
      (classifyObj (azureCutoff now D) ⟨"k", 0, now - D * usecPerDay + usecPerSec⟩).is_stale
        = false ∧
      (classifyObj (azureCutoff now D) ⟨"k", 0, now - D * usecPerDay⟩).is_stale = false) ∧
    (∀ (h : String → Nat) (bucket : String) (pages : List (List RawObj)) (now : Time)
      (D : Nat) (limit : Option Nat) (r : ObjectRecord),
      r ∈ awsScan h bucket pages now D limit →
      r.is_stale = decide (r.last_modified < awsCutoff now D)) := by
  constructor
  · intro now D
    simp only [classifyObj, awsCutoff, azureCutoff, decide_eq_true_eq,
      decide_eq_false_iff_not, not_lt]
    generalize (D : Int) * usecPerDay = x
    simp only [usecPerSec]
    have hb := cutoff_boundary_int now x
    exact ⟨hb.1, not_lt.1 hb.2.1, not_lt.1 hb.2.2.1, hb.2.2.2.1,
      not_lt.1 hb.2.2.2.2.1, not_lt.1 hb.2.2.2.2.2⟩
  · intro h bucket pages now D limit r hr
    exact mem_awsScan_stale hr

/-- Witness for claim C3 at a concrete scan. -/
theorem c3_staleness_boundary_witness :
    (classifyObj (awsCutoff 500000 1) ⟨"k", 0, 500000 - 1 * usecPerDay - usecPerSec⟩).is_stale
      = true ∧
    (⟨"s3://b/k", 5, 7, false, none, none⟩ : ObjectRecord) ∈
      awsScan (fun _ => 0) "b" [[⟨"k", 5, 7⟩]] 500000 1 none ∧
    (⟨"s3://b/k", 5, 7, false, none, none⟩ : ObjectRecord).is_stale =
      decide ((⟨"s3://b/k", 5, 7, false, none, none⟩ : ObjectRecord).last_modified <
        awsCutoff 500000 1) :=
  ⟨(c3_staleness_boundary.1 500000 1).1, by decide,
    c3_staleness_boundary.2 (fun _ => 0) "b" [[⟨"k", 5, 7⟩]] 500000 1 none
      ⟨"s3://b/k", 5, 7, false, none, none⟩ (by decide)⟩

/-- Claim C4: a scan with positive `limit = K` over a source holding more than
K records returns exactly K records, the enumeration pulls exactly K items
(GCS item loop), and the AWS paginator issues no page request after the page
in which the K-th item was pulled (fewer than K items lie in the pages
requested before the final one). -/
theorem c4_limit_respected :
    (∀ (K : Nat) (pages : List (List RawObj)) (h : String → Nat) (bucket : String)
      (now : Time) (D : Nat),
      0 < K → K < pages.flatten.length →
      (awsScan h bucket pages now D (some K)).length = K ∧
      (pullPages (some K) 0 pages).1.length = K ∧
      (pages.take ((pullPages (some K) 0 pages).2.2 - 1)).flatten.length < K) ∧
    (∀ (K : Nat) (objs : List RawObj), 0 < K → K < objs.length →
      (gcsPull (some K) 0 objs).1.length = K ∧ (gcsPull (some K) 0 objs).2 = K) := by
  constructor
  · intro K pages h bucket now D hK hN
    have hs := pullPages_spec K hK pages 0 hK (by omega)
    have hlen : (pullPages (some K) 0 pages).1.length = K := by
      rw [hs.1, List.length_take]
      omega
    refine ⟨?_, hlen, ?_⟩
    · simp only [awsScan]
      rw [(awsWriteBack_forall₂ _ _ _).length_eq, List.length_map, List.length_map, hlen]
    · have := hs.2.2.2
      omega
  · intro K objs hK hN
    have hs := gcsPull_spec K hK objs 0 hK (by omega)
    refine ⟨?_, ?_⟩
    · rw [hs.1, List.length_take]
      omega
    · rw [hs.2]
      omega

/-- Witness for claim C4 at a concrete two-object source with limit 1. -/
theorem c4_limit_respected_witness :
    (awsScan (fun _ => 0) "b" [[⟨"a", 1, 0⟩, ⟨"c", 2, 0⟩]] 0 1 (some 1)).length = 1 ∧
    (gcsPull (some 1) 0 [⟨"a", 1, 0⟩, ⟨"c", 2, 0⟩]).1.length = 1 :=
  ⟨(c4_limit_respected.1 1 [[⟨"a", 1, 0⟩, ⟨"c", 2, 0⟩]] (fun _ => 0) "b" 0 1
      (by decide) (by decide)).1,
    (c4_limit_respected.2 1 [⟨"a", 1, 0⟩, ⟨"c", 2, 0⟩] (by decide) (by decide)).1⟩

/-! ## Claim C6 -/

theorem lookup_cons_ne (kq a : String) (b : Val) (rest : RDict) (h : ¬ kq = a) :
    List.lookup kq ((a, b) :: rest) = List.lookup kq rest := by
  rw [List.lookup_cons]
  have hb : (kq == a) = false := by simpa using h
  rw [hb]

theorem lookup_map_replace (k : String) (v : Val) :
    ∀ (r : RDict), (r.lookup k).isSome = true →
      ((r.map fun p => if p.1 = k then (k, v) else p).lookup k) = some v
  | [], hs => by simp at hs
  | (a, b) :: rest, hs => by
    simp only [List.map_cons]
    by_cases hak : a = k
    · subst hak
      simp
    · have hka : ¬ k = a := fun h => hak h.symm
      rw [if_neg hak, lookup_cons_ne k a b _ hka]
      apply lookup_map_replace k v rest
      rw [lookup_cons_ne k a b rest hka] at hs
      exact hs

theorem lookup_append_single (k : String) (v : Val) (r : RDict) (h : r.lookup k = none) :
    ((r ++ [(k, v)]).lookup k) = some v := by
  rw [List.lookup_append, h]
  simp

theorem lookup_map_replace_ne (k : String) (v : Val) (kq : String) (hne : kq ≠ k) :
    ∀ (r : RDict),
      ((r.map fun p => if p.1 = k then (k, v) else p).lookup kq) = r.lookup kq
  | [] => by simp
  | (a, b) :: rest => by
    simp only [List.map_cons]
    by_cases hak : a = k
    · subst hak
      rw [if_pos rfl, lookup_cons_ne kq a v _ hne, lookup_cons_ne kq a b rest hne]
      exact lookup_map_replace_ne a v kq hne rest
    · rw [if_neg hak]
      by_cases hqa : kq = a
      · subst hqa
        rw [List.lookup_cons_self, List.lookup_cons_self]
      · rw [lookup_cons_ne kq a b _ hqa, lookup_cons_ne kq a b rest hqa]
        exact lookup_map_replace_ne k v kq hne rest

theorem lookup_append_single_ne (k : String) (v : Val) (kq : String) (hne : kq ≠ k)
    (r : RDict) : ((r ++ [(k, v)]).lookup kq) = r.lookup kq := by
  rw [List.lookup_append]
  have h2 : ([(k, v)] : RDict).lookup kq = none := by
    rw [lookup_cons_ne kq k v [] hne]
    rfl
  rw [h2]
  cases r.lookup kq <;> rfl

theorem lookup_dset_self (r : RDict) (k : String) (v : Val) :
    (dset r k v).lookup k = some v := by
  unfold dset
  by_cases hs : (r.lookup k).isSome
  · rw [if_pos hs]
    exact lookup_map_replace k v r hs
  · rw [if_neg hs]
    exact lookup_append_single k v r (Option.not_isSome_iff_eq_none.mp hs)

theorem lookup_dset_ne (r : RDict) (k : String) (v : Val) (kq : String) (hne : kq ≠ k) :
    (dset r k v).lookup kq = r.lookup kq := by
  unfold dset
  by_cases hs : (r.lookup k).isSome
  · rw [if_pos hs]
    exact lookup_map_replace_ne k v kq hne r
  · rw [if_neg hs]
    exact lookup_append_single_ne k v kq hne r

/-- Claim C6: `_ensure_status` backfills, for every record with no status yet,
exactly `duplicate` when `duplicate_id` is non-null (a nonempty id string),
else `stale` when `is_stale` is true, else `active`, and changes no field other
than `status`; `_ensure_status` maps this per-record backfill over the list. -/
theorem c6_status_backfill :
    (∀ records, ensureStatus records = records.map ensureStatusRec) ∧
    (∀ (r : RDict) (b : Bool),
      r.lookup "status" = none →
      r.lookup "is_stale" = some (Val.bool b) →
      ((∀ s, s ≠ "" → r.lookup "duplicate_id" = some (Val.str s) →
          (ensureStatusRec r).lookup "status" = some (Val.str "duplicate")) ∧
       ((r.lookup "duplicate_id" = none ∨ r.lookup "duplicate_id" = some Val.vnone) →
          (ensureStatusRec r).lookup "status" =
            some (Val.str (if b then "stale" else "active"))) ∧
       (∀ k, k ≠ "status" → (ensureStatusRec r).lookup k = r.lookup k))) := by
  refine ⟨fun _ => rfl, ?_⟩
  intro r b hstat hstale
  have hget : dget r "status" Val.vnone = Val.vnone := by simp [dget, hstat]
  have hst : dget r "is_stale" Val.vnone = Val.bool b := by simp [dget, hstale]
  have hvn : ¬(Val.vnone.truthy = true) := by simp [Val.truthy]
  refine ⟨?_, ?_, ?_⟩
  · intro s hs hdup
    have hd : dget r "duplicate_id" Val.vnone = Val.str s := by simp [dget, hdup]
    unfold ensureStatusRec
    rw [hget, if_neg hvn, hd,
      if_pos (show (Val.str s).truthy = true by simp [Val.truthy, hs])]
    exact lookup_dset_self r "status" (Val.str "duplicate")
  · intro hdup
    have hd : (dget r "duplicate_id" Val.vnone).truthy = false := by
      rcases hdup with h | h <;> simp [dget, h, Val.truthy]
    unfold ensureStatusRec
    rw [hget, if_neg hvn, if_neg (show ¬((dget r "duplicate_id" Val.vnone).truthy = true) by
      simp [hd]), hst]
    cases b
    · rw [if_neg (show ¬((Val.bool false).truthy = true) by simp [Val.truthy])]
      exact lookup_dset_self r "status" (Val.str "active")
    · rw [if_pos (show (Val.bool true).truthy = true by simp [Val.truthy])]
      exact lookup_dset_self r "status" (Val.str "stale")
  · intro k hk
    unfold ensureStatusRec
    rw [hget, if_neg hvn]
    by_cases h1 : (dget r "duplicate_id" Val.vnone).truthy
    · rw [if_pos h1]
      exact lookup_dset_ne r "status" (Val.str "duplicate") k hk
    · rw [if_neg h1]
      by_cases h2 : (dget r "is_stale" Val.vnone).truthy
      · rw [if_pos h2]
        exact lookup_dset_ne r "status" (Val.str "stale") k hk
      · rw [if_neg h2]
        exact lookup_dset_ne r "status" (Val.str "active") k hk

/-- Witness for claim C6 at a concrete record. -/
theorem c6_status_backfill_witness :
    (ensureStatusRec [("path", Val.str "p"), ("is_stale", Val.bool true),
        ("duplicate_id", Val.str "group-1")]).lookup "status" =
      some (Val.str "duplicate") ∧
    (ensureStatusRec [("path", Val.str "p"), ("is_stale", Val.bool true),
        ("duplicate_id", Val.str "group-1")]).lookup "path" =
      [("path", Val.str "p"), ("is_stale", Val.bool true),
        ("duplicate_id", Val.str "group-1")].lookup "path" :=
  ⟨((c6_status_backfill.2 [("path", Val.str "p"), ("is_stale", Val.bool true),
        ("duplicate_id", Val.str "group-1")] true (by decide) (by decide)).1
      "group-1" (by decide) (by decide)),
    ((c6_status_backfill.2 [("path", Val.str "p"), ("is_stale", Val.bool true),
        ("duplicate_id", Val.str "group-1")] true (by decide) (by decide)).2.2
      "path" (by decide))⟩

/-! ## Claim C7 -/

theorem allKeys_perm {l₁ l₂ : List RDict} (hp : l₁.Perm l₂) :
    (allKeys l₁).Perm (allKeys l₂) :=
  (hp.flatMap_right keysOf).dedup

theorem allKeys_nodup (l : List RDict) : (allKeys l).Nodup :=
  List.nodup_dedup _

theorem mem_allKeys {l : List RDict} {k : String} :
    k ∈ allKeys l ↔ ∃ r ∈ l, k ∈ keysOf r := by
  simp [allKeys, List.mem_dedup, List.mem_flatMap]

theorem orderedHeaders_perm {l₁ l₂ : List RDict} (hp : l₁.Perm l₂) :
    orderedHeaders l₁ = orderedHeaders l₂ :=
  List.filter_congr fun x _ => by simp [(allKeys_perm hp).mem_iff]

/-- Claim C7: the report column ordering is the fixed preferred prefix
restricted to the observed keys, in preferred order, followed by every other
observed key sorted lexicographically; it is independent of record order and
contains each observed key exactly once. -/
theorem c7_header_ordering :
    (∀ l₁ l₂ : List RDict, l₁.Perm l₂ → unionHeaders l₁ = unionHeaders l₂) ∧
    (∀ l : List RDict, (unionHeaders l).Nodup) ∧
    (∀ (l : List RDict) (k : String),
      k ∈ unionHeaders l ↔ ∃ r ∈ l, k ∈ keysOf r) ∧
    (∀ l : List RDict,
      unionHeaders l = orderedHeaders l ++ remainingHeaders l ∧
      orderedHeaders l = PREFERRED_ORDER.filter (fun k => k ∈ allKeys l) ∧
      List.Sorted strLe (remainingHeaders l)) := by
  refine ⟨?_, ?_, ?_, fun l => ⟨rfl, rfl, List.sorted_insertionSort strLe _⟩⟩
  · intro l₁ l₂ hp
    have hks := allKeys_perm hp
    have hord := orderedHeaders_perm hp
    show orderedHeaders l₁ ++ remainingHeaders l₁ = orderedHeaders l₂ ++ remainingHeaders l₂
    rw [hord]
    congr 1
    unfold remainingHeaders
    rw [hord]
    have hfil : ((allKeys l₁).filter (fun k => k ∉ orderedHeaders l₂)).Perm
        ((allKeys l₂).filter (fun k => k ∉ orderedHeaders l₂)) :=
      hks.filter _
    exact List.eq_of_perm_of_sorted
      (((List.perm_insertionSort strLe _).trans hfil).trans
        (List.perm_insertionSort strLe _).symm)
      (List.sorted_insertionSort strLe _) (List.sorted_insertionSort strLe _)
  · intro l
    show (orderedHeaders l ++ remainingHeaders l).Nodup
    refine List.Nodup.append ?_ ?_ ?_
    · exact List.Nodup.filter _ (by decide : PREFERRED_ORDER.Nodup)
    · exact (List.perm_insertionSort strLe _).nodup_iff.mpr
        (List.Nodup.filter _ (allKeys_nodup l))
    · intro a ha hb
      rw [remainingHeaders, List.mem_insertionSort, List.mem_filter] at hb
      have : a ∉ orderedHeaders l := by simpa using hb.2
      exact this ha
  · intro l k
    show k ∈ orderedHeaders l ++ remainingHeaders l ↔ _
    constructor
    · intro hk
      rcases List.mem_append.mp hk with hk | hk
      · have := (List.mem_filter.mp hk).2
        exact mem_allKeys.mp (by simpa using this)
      · rw [remainingHeaders, List.mem_insertionSort, List.mem_filter] at hk
        exact mem_allKeys.mp hk.1
    · intro hr
      have hall : k ∈ allKeys l := mem_allKeys.mpr hr
      by_cases hord : k ∈ orderedHeaders l
      · exact List.mem_append.mpr (Or.inl hord)
      · refine List.mem_append.mpr (Or.inr ?_)
        rw [remainingHeaders, List.mem_insertionSort, List.mem_filter]
        exact ⟨hall, by simpa using hord⟩

/-- Witness for claim C7 at concrete record lists. -/
theorem c7_header_ordering_witness :
    unionHeaders [[("b", Val.vnone), ("path", Val.vnone)], [("a", Val.vnone)]] =
      unionHeaders [[("a", Val.vnone)], [("b", Val.vnone), ("path", Val.vnone)]] ∧
    ("path" ∈ unionHeaders [[("b", Val.vnone), ("path", Val.vnone)], [("a", Val.vnone)]] ↔
      ∃ r ∈ [[("b", Val.vnone), ("path", Val.vnone)], [("a", Val.vnone)]],
        "path" ∈ keysOf r) :=
  ⟨c7_header_ordering.1 _ _ (List.Perm.swap _ _ _).symm,
    c7_header_ordering.2.2.1 [[("b", Val.vnone), ("path", Val.vnone)], [("a", Val.vnone)]]
      "path"⟩

/-! ## Claim C9 -/

theorem foldl_addToGroups_replicate (o : RawObj) :
    ∀ (n : Nat) (ps : List String),
      (List.replicate n o).foldl (fun g x => addToGroups (fingerprintOf x) x.path g)
        [(fingerprintOf o, ps)] = [(fingerprintOf o, ps ++ List.replicate n o.path)]
  | 0, ps => by simp
  | n + 1, ps => by
    simp only [List.replicate_succ, List.foldl_cons]
    rw [show addToGroups (fingerprintOf o) o.path [(fingerprintOf o, ps)] =
        [(fingerprintOf o, ps ++ [o.path])] by simp [addToGroups]]
    rw [foldl_addToGroups_replicate o n (ps ++ [o.path])]
    simp [List.replicate_succ]

theorem groupsOf_replicate (o : RawObj) (n : Nat) (hn : 1 ≤ n) :
    groupsOf (List.replicate n o) = [(fingerprintOf o, List.replicate n o.path)] := by
  obtain ⟨m, rfl⟩ : ∃ m, n = m + 1 := ⟨n - 1, by omega⟩
  unfold groupsOf
  simp only [List.replicate_succ, List.foldl_cons]
  rw [show addToGroups (fingerprintOf o) o.path [] = [(fingerprintOf o, [o.path])] from rfl]
  rw [foldl_addToGroups_replicate o m [o.path]]
  simp [List.replicate_succ]

theorem awsWriteBackComps_eq (groups : List (Fingerprint × List String))
    (files : List ObjectRecord) :
    awsWriteBackComps groups files = dupMemberCount groups * files.length := by
  unfold awsWriteBackComps dupMemberCount
  induction groups with
  | nil => simp
  | cons g gs ih =>
    simp only [List.map_cons, List.sum_cons, ih, Nat.add_mul]
    congr 1
    by_cases hg : g.2.length > 1 <;> simp [hg]

theorem awsScanComps_replicate (n : Nat) (hn : 2 ≤ n) :
    awsScanComps "b" (List.replicate n ⟨"k", 7, 3⟩) 0 0 = n * n := by
  unfold awsScanComps
  simp only [List.map_replicate]
  rw [groupsOf_replicate _ n (by omega), awsWriteBackComps_eq]
  unfold dupMemberCount
  simp only [List.map_cons, List.map_nil, List.sum_cons, List.sum_nil,
    List.length_replicate, List.length_map]
  rw [if_pos]
  · ring
  · try simp only [List.length_replicate]
    omega

/-- Claim C9 (counterexample): the duplicate-id write-back comparison count is
not bounded by any linear function of the record count: when all n records
share one fingerprint the nested rescan performs n * n path comparisons, so no
constant K bounds the comparisons by K * N. -/
theorem c9_writeback_not_linear :
    ¬ ∃ K : Nat, ∀ objs : List RawObj,
      awsScanComps "b" objs 0 0 ≤ K * objs.length := by
  rintro ⟨K, hK⟩
  have h := hK (List.replicate (K + 2) ⟨"k", 7, 3⟩)
  rw [awsScanComps_replicate (K + 2) (by omega), List.length_replicate] at h
  have := Nat.le_of_mul_le_mul_right h (show 0 < K + 2 by omega)
  omega

/-- Claim C9 (amended): the duplicate-id write-back is the naive nested rescan,
not an indexed single pass: for every path in every group of size at least 2
the whole record list is traversed, totalling (number of duplicate-group
members) * N comparisons, which is n * n when all n records share one
fingerprint. -/
theorem c9_amended_writeback_quadratic :
    (∀ (groups : List (Fingerprint × List String)) (files : List ObjectRecord),
      awsWriteBackComps groups files = dupMemberCount groups * files.length) ∧
    (∀ n : Nat, 2 ≤ n →
      awsScanComps "b" (List.replicate n ⟨"k", 7, 3⟩) 0 0 = n * n) :=
  ⟨awsWriteBackComps_eq, awsScanComps_replicate⟩

/-- Witness for the amended claim C9 at n = 2. -/
theorem c9_amended_writeback_quadratic_witness :
    awsWriteBackComps [] [] = dupMemberCount [] * ([] : List ObjectRecord).length ∧
    awsScanComps "b" (List.replicate 2 ⟨"k", 7, 3⟩) 0 0 = 2 * 2 :=
  ⟨c9_amended_writeback_quadratic.1 [] [],
    c9_amended_writeback_quadratic.2 2 (by decide)⟩

end CloudAudit
